import Mathlib

/-!
Verification development for DCHero (`dchero.go`), a dependency-confusion
scanner.  The Go program is shallowly embedded: every pure fragment of the
source becomes an executable Lean definition over `String` / `List Char`,
network effects become explicit parameters (a fetched body, a probe result,
a cache value), and the bounded-concurrency worker pool becomes a function
of an arbitrary completion order.

Conventions used throughout:
* Go strings are modelled as Lean `String`; character-level work happens on
  `String.data : List Char`.  Byte-level behaviour of the Go standard
  library coincides with character-level behaviour for ASCII data, and the
  case-folding helpers below implement the ASCII fold (`strings.EqualFold`,
  `strings.ToLower`, and the regexp flag `(?i)` additionally fold a few
  non-ASCII code points, which none of the scanned tokens contain).
* Percent-decoding of `%XX` escapes maps the decoded byte to the Unicode
  code point of the same value (Latin-1 view of the decoded byte string);
  for ASCII escapes this is exactly Go's behaviour.
* Go map iteration order is unspecified; the model fixes document order.
  No claim below depends on that order.
-/

/-- Character class of Go's `unicode.IsSpace` restricted to ASCII: the
characters trimmed by `strings.TrimSpace`. -/
def isGoSpace (c : Char) : Bool :=
  c = ' ' || c = '\t' || c = '\n' || c = Char.ofNat 11 || c = Char.ofNat 12 || c = '\r'

/-- Character class of the regexp escape `\s` in Go (`[\t\n\f\r ]`);
note it does not contain the vertical tab. -/
def isReSpace (c : Char) : Bool :=
  c = ' ' || c = '\t' || c = '\n' || c = Char.ofNat 12 || c = '\r'

/-- Model of `strings.TrimSpace` on a character list. -/
def trimSpaceList (cs : List Char) : List Char :=
  ((cs.dropWhile isGoSpace).reverse.dropWhile isGoSpace).reverse

/-- Model of `strings.TrimSpace`. -/
def goTrimSpace (s : String) : String :=
  ⟨trimSpaceList s.data⟩

/-- Model of `strings.ToLower` (ASCII fold, see the header note). -/
def goToLower (s : String) : String :=
  ⟨s.data.map Char.toLower⟩

/-- Model of `strings.EqualFold` (ASCII fold, see the header note). -/
def goEqualFold (a b : String) : Bool :=
  a.data.map Char.toLower == b.data.map Char.toLower

/-- Model of `strings.HasPrefix`. -/
def goHasPrefix (s pre : String) : Bool :=
  pre.data.isPrefixOf s.data

/-- Model of `strings.HasSuffix`. -/
def goHasSuffix (s suf : String) : Bool :=
  suf.data.isSuffixOf s.data

/-- Model of `strings.Cut s sep` for a one-character separator: splits at
the first occurrence, dropping the separator; if the separator does not
occur the second component is empty. -/
def cutAtFirst (sep : Char) (cs : List Char) : List Char × List Char :=
  match cs with
  | [] => ([], [])
  | c :: rest =>
    if c = sep then ([], rest)
    else
      let (a, b) := cutAtFirst sep rest
      (c :: a, b)

/-- Model of net/url's `split(s, c, false)`: the part before the first
occurrence of `c`, and the remainder including `c` itself. -/
def splitKeep (sep : Char) (cs : List Char) : List Char × List Char :=
  match cs with
  | [] => ([], [])
  | c :: rest =>
    if c = sep then ([], c :: rest)
    else
      let (a, b) := splitKeep sep rest
      (c :: a, b)

/-- Source `looksLikeCodeFile` (dchero.go:59-62): lower-case the string and
test the four code-file suffixes. -/
def looksLikeCodeFile (p : String) : Bool :=
  let l := goToLower p
  goHasSuffix l ".js" || goHasSuffix l ".mjs" || goHasSuffix l ".cjs" || goHasSuffix l ".ts"

/-- The twelve manifest basenames of the regexp `manifestRe`
(dchero.go:28), already lower-cased for the `(?i)` fold. -/
def manifestNames : List (List Char) :=
  ["package.json".data, "package-lock.json".data, "yarn.lock".data,
   "pnpm-lock.yaml".data, "requirements.txt".data, "pyproject.toml".data,
   "pipfile".data, "pipfile.lock".data, "constraints.txt".data,
   "setup.py".data, "composer.json".data, "go.mod".data]

/-- Case-insensitive literal-prefix test used when unfolding `manifestRe`:
does `cs` start with `name` up to the ASCII fold? -/
def foldPrefix (name cs : List Char) : Bool :=
  match name, cs with
  | [], _ => true
  | _ :: _, [] => false
  | n :: ns, c :: rest => n = c.toLower && foldPrefix ns rest

/-- One anchored alternative of `manifestRe` at the current position: some
manifest basename appears here and is followed by end-of-string or one of
`?`, `#`, `/`. -/
def manifestAt (cs : List Char) : Bool :=
  manifestNames.any fun n =>
    foldPrefix n cs &&
      (match cs.drop n.length with
       | [] => true
       | c :: _ => c = '?' || c = '#' || c = '/')

/-- Scans for a position directly after a `/` where `manifestAt` holds. -/
def manifestAfterSlash (cs : List Char) : Bool :=
  match cs with
  | [] => false
  | c :: rest => (c = '/' && manifestAt rest) || manifestAfterSlash rest

/-- Model of `manifestRe.MatchString` (dchero.go:28): the pattern
`(?i)(?:^|/)(…basenames…)(?:$|[?#/])` matches somewhere in `cs` exactly
when a basename occurs at the start of the string or right after a `/`,
and is followed by the end of the string or one of `?`, `#`, `/`. -/
def manifestMatch (cs : List Char) : Bool :=
  manifestAt cs || manifestAfterSlash cs

/-- Model of `path.Base` from Go's `path` package: trailing slashes are
removed, then everything up to and including the last slash is removed;
the empty string gives `"."` and an all-slash string gives `"/"`. -/
def pathBase (s : String) : String :=
  if s.data = [] then "." else
    let l := (s.data.reverse.dropWhile (· = '/')).reverse
    if l = [] then "/" else ⟨(l.reverse.takeWhile (· ≠ '/')).reverse⟩

/-! ## Model of `net/url.Parse`

The classifier calls `url.Parse`, reads `Scheme`, `Host`, `Path` and
`RawQuery`, and calls `url.PathUnescape`.  The definitions below embed the
relevant behaviour of Go's `net/url` (Go 1.21) for non-request parsing:
control-character rejection, fragment splitting, scheme extraction, query
splitting with the `ForceQuery` special case, authority parsing with
userinfo and host validation, and percent-decoding of the path.  One
simplification is documented at `parseHost` (IPv6 zone escapes). -/

/-- Character test for hexadecimal digits (`ishex` in net/url). -/
def isHexDigit (c : Char) : Bool :=
  (('0' ≤ c) && (c ≤ '9')) || (('a' ≤ c) && (c ≤ 'f')) || (('A' ≤ c) && (c ≤ 'F'))

/-- Numeric value of a hexadecimal digit (`unhex` in net/url). -/
def hexVal (c : Char) : Nat :=
  if ('0' ≤ c) && (c ≤ '9') then c.toNat - '0'.toNat
  else if ('a' ≤ c) && (c ≤ 'f') then c.toNat - 'a'.toNat + 10
  else if ('A' ≤ c) && (c ≤ 'F') then c.toNat - 'A'.toNat + 10
  else 0

/-- Checks that every `%` in the list begins a well-formed `%XX` escape,
the part of net/url's `unescape` shared by all modes. -/
def validPercents (cs : List Char) : Bool :=
  match cs with
  | [] => true
  | '%' :: a :: b :: rest => isHexDigit a && isHexDigit b && validPercents rest
  | '%' :: _ => false
  | _ :: rest => validPercents rest

/-- Percent-decoding with no character restrictions: net/url's `unescape`
in the path modes (`encodePath` / `encodePathSegment`), failing exactly on
a malformed `%XX` escape. -/
def unescapePath (cs : List Char) : Option (List Char) :=
  match cs with
  | [] => some []
  | '%' :: a :: b :: rest =>
    if isHexDigit a && isHexDigit b then
      (unescapePath rest).map fun r => Char.ofNat (16 * hexVal a + hexVal b) :: r
    else none
  | '%' :: _ => none
  | c :: rest => (unescapePath rest).map fun r => c :: r

/-- Host-mode character test: net/url's `shouldEscape(c, encodeHost)` is
false (the character may appear unescaped in a host) for ASCII letters and
digits and this punctuation set; all other ASCII characters are rejected,
while non-ASCII characters pass through. -/
def hostCharOK (c : Char) : Bool :=
  c.isAlpha || c.isDigit || c.toNat ≥ 128 ||
    "-._~!$&()*+,;=:[]<>".data.contains c || c = Char.ofNat 39 || c = Char.ofNat 34

/-- Percent-decoding in host mode: escapes must be `%XX` with `XX ≥ 80`
(only bytes above ASCII may be escaped in a host) except for the literal
`%25`, and unescaped ASCII characters must satisfy `hostCharOK`. -/
def unescapeHost (cs : List Char) : Option (List Char) :=
  match cs with
  | [] => some []
  | '%' :: a :: b :: rest =>
    if isHexDigit a && isHexDigit b &&
        (hexVal a ≥ 8 || (a = '2' && b = '5')) then
      (unescapeHost rest).map fun r => Char.ofNat (16 * hexVal a + hexVal b) :: r
    else none
  | '%' :: _ => none
  | c :: rest =>
    if hostCharOK c then (unescapeHost rest).map fun r => c :: r else none

/-- Model of `url.PathUnescape` as the classifier uses it: the error is
ignored and a failed decode leaves the empty string (Go's `unescape`
returns `""` together with the error). -/
def pathUnescapeLenient (cs : List Char) : List Char :=
  (unescapePath cs).getD []

/-- Model of net/url's `validOptionalPort`: empty, or `:` followed by
decimal digits (possibly none). -/
def validOptionalPort (cs : List Char) : Bool :=
  match cs with
  | [] => true
  | ':' :: digits => digits.all (·.isDigit)
  | _ => false

/-- Model of net/url's `validUserinfo`: ASCII letters, digits and the
RFC 3986 userinfo punctuation (plus `%` and `@`). -/
def validUserinfo (cs : List Char) : Bool :=
  cs.all fun c =>
    c.isAlpha || c.isDigit ||
      "-._:~!$&()*+,;=%@".data.contains c || c = Char.ofNat 39

/-- Index of the last occurrence of a character (`strings.LastIndex` for a
one-character needle), as the length of the prefix before it. -/
def lastIndexOf (sep : Char) (cs : List Char) : Option Nat :=
  match cs with
  | [] => none
  | c :: rest =>
    match lastIndexOf sep rest with
    | some i => some (i + 1)
    | none => if c = sep then some 0 else none

/-- Model of net/url's `parseHost`: bracketed IPv6 hosts need a closing
`]` and a valid optional port, other hosts need a valid optional port
after the last `:`; the result is percent-decoded in host mode.  (For a
bracketed host Go decodes an IPv6 zone after `%25` in zone mode, which
additionally tolerates escaped ASCII inside the zone; this model applies
the host mode to the whole bracketed string, which agrees with Go
whenever the zone contains no `%XX` escape of an ASCII byte.) -/
def parseHost (host : List Char) : Option (List Char) :=
  match host with
  | '[' :: _ =>
    match lastIndexOf ']' host with
    | none => none
    | some i =>
      if validOptionalPort (host.drop (i + 1)) then unescapeHost host else none
  | _ =>
    match lastIndexOf ':' host with
    | some i => if validOptionalPort (host.drop i) then unescapeHost host else none
    | none => unescapeHost host

/-- Model of net/url's `parseAuthority`, returning only the host: the
userinfo before the last `@` must be valid and well-escaped, and the rest
must parse as a host. -/
def parseAuthority (authority : List Char) : Option (List Char) :=
  match lastIndexOf '@' authority with
  | none => parseHost authority
  | some i =>
    match parseHost (authority.drop (i + 1)) with
    | none => none
    | some h =>
      if validUserinfo (authority.take i) && validPercents (authority.take i) then
        some h
      else none

/-- Model of net/url's `getScheme`: returns `(scheme, rest)`.  A leading
run of scheme characters followed by `:` is the scheme (it must start with
a letter); a leading `:` is an error (`none`); in every other case the
scheme is empty and the whole input is the rest. -/
def getScheme (cs : List Char) : Option (List Char × List Char) :=
  go cs 0
where
  /-- Walks the input; `i` counts the characters already accepted as
  scheme characters. -/
  go : List Char → Nat → Option (List Char × List Char)
  | [], _ => some ([], cs)
  | c :: rest, i =>
    if c.isAlpha then go rest (i + 1)
    else if c.isDigit || c = '+' || c = '-' || c = '.' then
      if i = 0 then some ([], cs) else go rest (i + 1)
    else if c = ':' then
      if i = 0 then none else some (cs.take i, cs.drop (i + 1))
    else some ([], cs)

/-- Result of `url.Parse` restricted to the fields the program reads.  An
"opaque" URL (rootless path after a scheme) is represented by `host = ""`
and `path = ""`, which is all the classifier observes of it. -/
structure GoURL where
  scheme : String
  host : String
  path : String
  rawQuery : String
  deriving Repr, DecidableEq

/-- Control-character test of net/url's `stringContainsCTLByte`. -/
def containsCTL (cs : List Char) : Bool :=
  cs.any fun c => c.toNat < 32 || c.toNat = 127

/-- Model of net/url's internal `parse(rawURL, viaRequest := false)` after
the fragment has been split off. -/
def urlParseMain (raw : List Char) : Option GoURL :=
  if containsCTL raw then none
  else if raw = ['*'] then some ⟨"", "", "*", ""⟩
  else
    match getScheme raw with
    | none => none
    | some (schemeRaw, rest0) =>
      let scheme : String := ⟨schemeRaw.map Char.toLower⟩
      -- query split, with the trailing-`?` ForceQuery special case
      let (rest, rawQuery) :=
        if rest0.getLast? = some '?' && !(rest0.dropLast.contains '?') then
          (rest0.dropLast, ([] : List Char))
        else cutAtFirst '?' rest0
      if rest.head? ≠ some '/' then
        if scheme ≠ "" then
          -- rootless path after a scheme: the URL is opaque
          some ⟨scheme, "", "", ⟨rawQuery⟩⟩
        else
          -- no scheme: reject a colon in the first path segment
          if ((cutAtFirst '/' rest).1).contains ':' then none
          else (unescapePath rest).map fun p => (⟨scheme, "", ⟨p⟩, ⟨rawQuery⟩⟩ : GoURL)
      else
        if (scheme ≠ "" || !(List.isPrefixOf "///".data rest)) &&
            List.isPrefixOf "//".data rest then
          let (authority, rest') := splitKeep '/' (rest.drop 2)
          match parseAuthority authority with
          | none => none
          | some h =>
            (unescapePath rest').map fun p => ⟨scheme, ⟨h⟩, ⟨p⟩, ⟨rawQuery⟩⟩
        else
          (unescapePath rest).map fun p => ⟨scheme, "", ⟨p⟩, ⟨rawQuery⟩⟩

/-- Model of `url.Parse`: split the fragment at the first `#`, parse the
remainder, then validate the fragment's percent-escapes (`setFragment`
fails on a malformed escape). -/
def urlParse (rawURL : String) : Option GoURL :=
  let (u, frag) := cutAtFirst '#' rawURL.data
  match urlParseMain u with
  | none => none
  | some url => if validPercents frag then some url else none

/-! ## URL classifier (`filterManifestURLs`) -/

/-- Body of the classifier's acceptance test (dchero.go:79-90) on a
parsed URL: scheme `http` or `https`, non-empty host, and the
percent-decoded path-plus-query matches `manifestRe` or ends in a
code-file suffix. -/
def acceptParsed (p : GoURL) : Bool :=
  if p.scheme ≠ "http" && p.scheme ≠ "https" then false
  else if p.host = "" then false
  else
    let pathPlus := p.path ++ (if p.rawQuery ≠ "" then "?" ++ p.rawQuery else "")
    let unesc : String := ⟨pathUnescapeLenient pathPlus.data⟩
    manifestMatch unesc.data || looksLikeCodeFile unesc

/-- Acceptance test applied by `filterManifestURLs` (dchero.go:75-90) to a
trimmed, not-yet-seen line: it must parse as a URL and pass
`acceptParsed`. -/
def acceptURL (u : String) : Bool :=
  match urlParse u with
  | none => false
  | some p => acceptParsed p

/-- Loop of `filterManifestURLs` (dchero.go:67-94): `seen` is the set of
already-accepted trimmed lines. -/
def filterAux (seen : List String) : List String → List String
  | [] => []
  | raw :: rest =>
    let u := goTrimSpace raw
    if u = "" then filterAux seen rest
    else if u ∈ seen then filterAux seen rest
    else if acceptURL u then u :: filterAux (u :: seen) rest
    else filterAux seen rest

/-- Source `filterManifestURLs` (dchero.go:64-96). -/
def filterManifestURLs (lines : List String) : List String :=
  filterAux [] lines

/-- Deduplication keeping the first occurrence, relative to a starting
`seen` set.  This is the claim-side description of the classifier's
dedup step ("keeping first occurrence and its position"); the theorems
below relate it to `filterManifestURLs`. -/
def dedupFirstAux (seen : List String) : List String → List String
  | [] => []
  | x :: xs =>
    if x ∈ seen then dedupFirstAux seen xs
    else x :: dedupFirstAux (x :: seen) xs

/-! ## Import-statement analysis (`extractPackagesFromJS`)

The two Go regexps are hand-compiled into scanners with the same
leftmost-first (Perl-style) semantics Go's regexp package guarantees:
`scopedRe = @[\w.-]+\/[\w.-]+` and
`importReqRe = (?:require\(\s*['"]([^'"]+)['"]\s*\))|(?:import\s+(?:.+?\s+from\s+)?['"]([^'"]+)['"])`.
Both finders scan left to right and continue after the end of each match,
exactly like `FindAllString` / `FindAllStringSubmatch`. -/

/-- The regexp class `\w` (ASCII word characters in Go's regexp). -/
def isWordChar (c : Char) : Bool :=
  c.isAlpha || c.isDigit || c = '_'

/-- The character class `[\w.-]` of `scopedRe`. -/
def isScopeChar (c : Char) : Bool :=
  isWordChar c || c = '.' || c = '-'

/-- Attempts the tail `[\w.-]+\/[\w.-]+` of `scopedRe` on the text after a
`@`; both `+` repetitions are greedy and their class excludes `/`, so the
maximal runs are the unique match.  Returns the full matched token
(including the `@`) and the rest of the text after the match. -/
def scopedTry (cs : List Char) : Option (List Char × List Char) :=
  let r1 := cs.takeWhile isScopeChar
  if r1 = [] then none
  else
    match cs.drop r1.length with
    | '/' :: rest2 =>
      let r2 := rest2.takeWhile isScopeChar
      if r2 = [] then none
      else some ('@' :: r1 ++ '/' :: r2, rest2.drop r2.length)
    | _ => none

/-- Fuelled scanner for `scopedRe.FindAllString`; a match can only start
at a `@`, and scanning resumes after the end of each match. -/
def scopedFindAllGo : Nat → List Char → List (List Char)
  | 0, _ => []
  | _ + 1, [] => []
  | fuel + 1, c :: rest =>
    if c = '@' then
      match scopedTry rest with
      | some (m, rest') => m :: scopedFindAllGo fuel rest'
      | none => scopedFindAllGo fuel rest
    else scopedFindAllGo fuel rest

/-- Model of `scopedRe.FindAllString content -1` (dchero.go:32,203). -/
def scopedFindAll (cs : List Char) : List (List Char) :=
  scopedFindAllGo (cs.length + 1) cs

/-- Quote characters of the classes `['"]` and `[^'"]`. -/
def isQuoteChar (c : Char) : Bool :=
  c = Char.ofNat 39 || c = Char.ofNat 34

/-- Matches `['"]([^'"]+)['"]`: an opening quote of either kind, a
non-empty maximal run of non-quote characters (the capture), and a
closing quote of either kind (the regexp does not require them to be the
same).  Returns the capture and the rest after the closing quote. -/
def tryQuoteCap (cs : List Char) : Option (List Char × List Char) :=
  match cs with
  | [] => none
  | c :: rest =>
    if isQuoteChar c then
      let cap := rest.takeWhile fun d => !isQuoteChar d
      if cap = [] then none
      else
        match rest.drop cap.length with
        | d :: rest2 => if isQuoteChar d then some (cap, rest2) else none
        | [] => none
    else none

/-- Length of the leading `\s` run. -/
def wsRunLen (cs : List Char) : Nat :=
  (cs.takeWhile isReSpace).length

/-- First alternative of `importReqRe` after the literal `require(`:
`\s*['"]([^'"]+)['"]\s*\)`.  Every step is deterministic because the
greedy runs are followed by characters outside their classes. -/
def tryAlt1 (cs : List Char) : Option (List Char × List Char) :=
  match tryQuoteCap (cs.drop (wsRunLen cs)) with
  | none => none
  | some (cap, rest) =>
    match rest.drop (wsRunLen rest) with
    | ')' :: rest2 => some (cap, rest2)
    | _ => none

/-- The tail `\s+from\s+['"]([^'"]+)['"]` tried after the lazy dots of
the optional group: both `\s+` runs are maximal (their class excludes the
following literal characters), making this deterministic. -/
def tryFromTail (cs : List Char) : Option (List Char × List Char) :=
  let w := wsRunLen cs
  if w = 0 then none
  else
    let cs1 := cs.drop w
    if List.isPrefixOf "from".data cs1 then
      let cs2 := cs1.drop 4
      let w2 := wsRunLen cs2
      if w2 = 0 then none else tryQuoteCap (cs2.drop w2)
    else none

/-- The optional group `(?:.+?\s+from\s+)` followed by the quoted capture:
the lazy `.+?` tries 1, 2, … non-newline characters in increasing order
(`.` does not match a newline). -/
def tryDotsFrom (cs : List Char) : Option (List Char × List Char) :=
  let maxDots := (cs.takeWhile (· ≠ '\n')).length
  (List.range maxDots).findSome? fun j => tryFromTail (cs.drop (j + 1))

/-- Second alternative of `importReqRe` after the literal `import`:
`\s+(?:.+?\s+from\s+)?['"]([^'"]+)['"]`.  The greedy `\s+` tries the
maximal whitespace run first and backtracks down to one character (`.`
also matches whitespace, so shorter runs can succeed where the maximal
one fails); for each run the greedy `?` tries the group before its
absence. -/
def tryAlt2 (cs : List Char) : Option (List Char × List Char) :=
  let w := wsRunLen cs
  (List.range w).findSome? fun j =>
    let cs1 := cs.drop (w - j)
    (tryDotsFrom cs1).orElse fun _ => tryQuoteCap cs1

/-- One attempt of `importReqRe` at the current position.  The two
alternatives start with incompatible literals, so trying them in order
is the same as the regexp's preference for the first alternative. -/
def importTryAt (cs : List Char) : Option (List Char × List Char) :=
  if List.isPrefixOf "require(".data cs then tryAlt1 (cs.drop 8)
  else if List.isPrefixOf "import".data cs then tryAlt2 (cs.drop 6)
  else none

/-- Fuelled scanner for `importReqRe.FindAllStringSubmatch`, returning the
quoted capture of each match (Go's loop reads `sub[1]` or `sub[2]`,
whichever alternative matched; both are this capture). -/
def importFindAllGo : Nat → List Char → List (List Char)
  | 0, _ => []
  | _ + 1, [] => []
  | fuel + 1, cs@(_ :: rest) =>
    match importTryAt cs with
    | some (cap, rest') => cap :: importFindAllGo fuel rest'
    | none => importFindAllGo fuel rest

/-- Model of `importReqRe.FindAllStringSubmatch content -1`
(dchero.go:31,210), as the list of captures. -/
def importFindAll (cs : List Char) : List (List Char) :=
  importFindAllGo (cs.length + 1) cs

/-- Source `extractPackagesFromJS` (dchero.go:200-237): collect the
scoped-token matches (subject to the source's prefix test on the match
itself), then the quoted specifiers of `require`/`import` (trimmed,
dropped when empty or when starting with `.`, `/`, `http://`, `https://`
or `git+` case-insensitively); the Go set-plus-`sort.Strings` result is
the sorted deduplication. -/
def extractPackagesFromJS (content : String) : List String :=
  let scopedToks : List String := (scopedFindAll content.data).filterMap fun m =>
    let ms : String := ⟨m⟩
    if goHasPrefix ms "." || goHasPrefix ms "/" then none else some ms
  let quotedToks : List String := (importFindAll content.data).filterMap fun capData =>
    let pkg := goTrimSpace ⟨capData⟩
    if pkg = "" then none
    else if goHasPrefix pkg "." || goHasPrefix pkg "/" then none
    else
      let lpkg := goToLower pkg
      if goHasPrefix lpkg "http://" || goHasPrefix lpkg "https://" ||
          goHasPrefix lpkg "git+" then none
      else some pkg
  ((scopedToks ++ quotedToks).dedup).insertionSort (· ≤ ·)

/-! ## Requirement-list extraction -/

/-- The delimiter class `[<>=!~\[\];\s]` of `reqSplitRe` (dchero.go:29). -/
def reqDelim (c : Char) : Bool :=
  c = '<' || c = '>' || c = '=' || c = '!' || c = '~' ||
    c = '[' || c = ']' || c = ';' || isReSpace c

/-- Requirement-list branch of `getDependencies` (dchero.go:183-197):
split the body into lines at `\n`, trim each line, drop empty lines and
lines starting with `#`, keep the text before the first delimiter
(`reqSplitRe.Split(line, -1)[0]`), trimmed, when it is non-empty. -/
def requirementNames (body : String) : List String :=
  (body.data.splitOn '\n').filterMap fun lnData =>
    let line := trimSpaceList lnData
    if line = [] then none
    else if line.head? = some '#' then none
    else
      let tok := trimSpaceList (line.takeWhile fun c => !reqDelim c)
      if tok = [] then none else some ⟨tok⟩

/-! ## JSON parsing and `packageJSON` unmarshalling

`getDependencies` calls `encoding/json.Unmarshal` into
`packageJSON{Dependencies, DevDependencies map[string]string}`.  The
parser below accepts exactly the JSON grammar Go's scanner accepts
(strict numbers, string escapes including `\uXXXX` with surrogate-pair
combination and U+FFFD for invalid surrogates, no trailing data), and the
binding reproduces Go's decoding rules: the top level must be an object
(or `null`, a no-op); object keys match the two fields case-insensitively;
a field value must be an object of string values (or `null`, a no-op);
`null` elements store the empty string; duplicate keys are decoded in
order, later entries merging into the same map. -/

/-- JSON values.  Numbers carry no payload: the program only reads object
keys and requires string values, so only a number's well-formedness
matters. -/
inductive JsonVal where
  | nullV : JsonVal
  | boolV : Bool → JsonVal
  | numV : JsonVal
  | strV : List Char → JsonVal
  | arrV : List JsonVal → JsonVal
  | objV : List (List Char × JsonVal) → JsonVal

/-- JSON whitespace (space, tab, newline, carriage return). -/
def isJsonWs (c : Char) : Bool :=
  c = ' ' || c = '\t' || c = '\n' || c = '\r'

/-- Skips JSON whitespace. -/
def skipWs (cs : List Char) : List Char :=
  cs.dropWhile isJsonWs

/-- Decodes the four hex digits of a `\uXXXX` escape. -/
def parseHex4 (cs : List Char) : Option (Nat × List Char) :=
  match cs with
  | a :: b :: c :: d :: rest =>
    if isHexDigit a && isHexDigit b && isHexDigit c && isHexDigit d then
      some (((hexVal a * 16 + hexVal b) * 16 + hexVal c) * 16 + hexVal d, rest)
    else none
  | _ => none

/-- Parses the contents of a JSON string after the opening quote, up to
and including the closing quote.  Control characters below U+0020 are
rejected; `\uXXXX` escapes combine surrogate pairs and turn unpaired
surrogates into U+FFFD, as Go's decoder does. -/
def parseJsonStringBody (fuel : Nat) (cs : List Char) : Option (List Char × List Char) :=
  match fuel, cs with
  | 0, _ => none
  | _ + 1, [] => none
  | fuel + 1, c :: rest =>
    if c = Char.ofNat 34 then some ([], rest)
    else if c = Char.ofNat 92 then
      match rest with
      | [] => none
      | e :: rest2 =>
        if e = Char.ofNat 34 || e = Char.ofNat 92 || e = '/' then
          (parseJsonStringBody fuel rest2).map fun (s, r) => (e :: s, r)
        else if e = 'b' then
          (parseJsonStringBody fuel rest2).map fun (s, r) => (Char.ofNat 8 :: s, r)
        else if e = 'f' then
          (parseJsonStringBody fuel rest2).map fun (s, r) => (Char.ofNat 12 :: s, r)
        else if e = 'n' then
          (parseJsonStringBody fuel rest2).map fun (s, r) => ('\n' :: s, r)
        else if e = 'r' then
          (parseJsonStringBody fuel rest2).map fun (s, r) => ('\r' :: s, r)
        else if e = 't' then
          (parseJsonStringBody fuel rest2).map fun (s, r) => ('\t' :: s, r)
        else if e = 'u' then
          match parseHex4 rest2 with
          | none => none
          | some (n, rest3) =>
            if 0xD800 ≤ n && n ≤ 0xDBFF then
              -- high surrogate: look for a following \uXXXX low surrogate
              match rest3 with
              | u1 :: u2 :: rest4 =>
                if u1 = Char.ofNat 92 && u2 = 'u' then
                  match parseHex4 rest4 with
                  | some (m, rest5) =>
                    if 0xDC00 ≤ m && m ≤ 0xDFFF then
                      let combined := 0x10000 + (n - 0xD800) * 0x400 + (m - 0xDC00)
                      (parseJsonStringBody fuel rest5).map fun (s, r) =>
                        (Char.ofNat combined :: s, r)
                    else
                      -- a \uXXXX follows but is not a low surrogate:
                      -- emit U+FFFD and reprocess it as its own escape
                      (parseJsonStringBody fuel (u1 :: u2 :: rest4)).map fun (s, r) =>
                        (Char.ofNat 0xFFFD :: s, r)
                  | none => none
                else (parseJsonStringBody fuel rest3).map fun (s, r) =>
                    (Char.ofNat 0xFFFD :: s, r)
              | _ => (parseJsonStringBody fuel rest3).map fun (s, r) =>
                  (Char.ofNat 0xFFFD :: s, r)
            else if 0xDC00 ≤ n && n ≤ 0xDFFF then
              (parseJsonStringBody fuel rest3).map fun (s, r) =>
                (Char.ofNat 0xFFFD :: s, r)
            else
              (parseJsonStringBody fuel rest3).map fun (s, r) => (Char.ofNat n :: s, r)
        else none
    else if c.toNat < 32 then none
    else (parseJsonStringBody fuel rest).map fun (s, r) => (c :: s, r)

/-- Consumes a JSON number after an optional leading minus: `0` or a
non-zero-led digit run, an optional fraction, an optional exponent. -/
def parseJsonNumberTail (cs : List Char) : Option (List Char) :=
  match cs with
  | [] => none
  | c :: rest =>
    if c = '0' then some (afterInt rest)
    else if c.isDigit then some (afterInt (rest.dropWhile (·.isDigit)))
    else none
where
  /-- Fraction and exponent after the integer part. -/
  afterInt (cs : List Char) : List Char :=
    let cs1 :=
      match cs with
      | '.' :: d :: rest => if d.isDigit then rest.dropWhile (·.isDigit) else cs
      | _ => cs
    match cs1 with
    | e :: rest =>
      if e = 'e' || e = 'E' then
        match rest with
        | s :: d :: rest2 =>
          if (s = '+' || s = '-') && d.isDigit then rest2.dropWhile (·.isDigit)
          else if s.isDigit then (d :: rest2).dropWhile (·.isDigit)
          else cs1
        | [s] => if s.isDigit then [] else cs1
        | [] => cs1
      else cs1
    | [] => cs1

/-! The JSON value parsers below form one fuelled mutual recursion:
`parseJsonVal` parses a value, `parseJsonMembers` the members of an
object after its `{` (when not immediately closed), `parseJsonItems` the
items of an array after its `[` (when not immediately closed).  Each
returns the parse result and the unconsumed rest. -/
mutual

def parseJsonVal : Nat → List Char → Option (JsonVal × List Char)
  | 0, _ => none
  | fuel + 1, cs =>
    match skipWs cs with
    | [] => none
    | c :: rest =>
      if c = Char.ofNat 34 then
        (parseJsonStringBody (fuel + 1) rest).map fun (s, r) => (JsonVal.strV s, r)
      else if c = Char.ofNat 123 then
        match skipWs rest with
        | d :: r1 =>
          if d = Char.ofNat 125 then some (JsonVal.objV [], r1)
          else (parseJsonMembers fuel rest).map fun (es, r) => (JsonVal.objV es, r)
        | [] => none
      else if c = '[' then
        match skipWs rest with
        | d :: r1 =>
          if d = ']' then some (JsonVal.arrV [], r1)
          else (parseJsonItems fuel rest).map fun (vs, r) => (JsonVal.arrV vs, r)
        | [] => none
      else if c = 't' then
        if List.isPrefixOf "rue".data rest then some (JsonVal.boolV true, rest.drop 3)
        else none
      else if c = 'f' then
        if List.isPrefixOf "alse".data rest then some (JsonVal.boolV false, rest.drop 4)
        else none
      else if c = 'n' then
        if List.isPrefixOf "ull".data rest then some (JsonVal.nullV, rest.drop 3)
        else none
      else if c = '-' then
        (parseJsonNumberTail rest).map fun r => (JsonVal.numV, r)
      else
        (parseJsonNumberTail (c :: rest)).map fun r => (JsonVal.numV, r)

def parseJsonMembers : Nat → List Char → Option (List (List Char × JsonVal) × List Char)
  | 0, _ => none
  | fuel + 1, cs =>
    match skipWs cs with
    | [] => none
    | c :: rest =>
      if c = Char.ofNat 34 then
        match parseJsonStringBody (fuel + 1) rest with
        | none => none
        | some (k, r1) =>
          match skipWs r1 with
          | ':' :: r2 =>
            match parseJsonVal fuel r2 with
            | none => none
            | some (v, r3) =>
              match skipWs r3 with
              | [] => none
              | d :: r4 =>
                if d = ',' then
                  (parseJsonMembers fuel r4).map fun (es, r) => ((k, v) :: es, r)
                else if d = Char.ofNat 125 then some ([(k, v)], r4)
                else none
          | _ => none
      else none

def parseJsonItems : Nat → List Char → Option (List JsonVal × List Char)
  | 0, _ => none
  | fuel + 1, cs =>
    match parseJsonVal fuel cs with
    | none => none
    | some (v, r1) =>
      match skipWs r1 with
      | [] => none
      | d :: r2 =>
        if d = ',' then (parseJsonItems fuel r2).map fun (vs, r) => (v :: vs, r)
        else if d = ']' then some ([v], r2)
        else none

end

/-- Parses a complete JSON document: one value with only whitespace after
it, as Go's `Unmarshal` requires. -/
def parseJsonDoc (body : String) : Option JsonVal :=
  match parseJsonVal (body.data.length + 1) body.data with
  | none => none
  | some (v, rest) => if skipWs rest = [] then some v else none

/-- The Go struct `packageJSON` (dchero.go:143-146); the two
`map[string]string` fields are modelled as association lists in document
order. -/
structure PackageJSON where
  dependencies : List (String × String)
  devDependencies : List (String × String)
  deriving Repr, DecidableEq

/-- Inserts a key into an association list, replacing in place. -/
def assocInsert (m : List (String × String)) (k v : String) : List (String × String) :=
  match m with
  | [] => [(k, v)]
  | (k0, v0) :: rest =>
    if k0 = k then (k0, v) :: rest else (k0, v0) :: assocInsert rest k v

/-- Decodes a JSON value into a `map[string]string`, merging into the
current map: `null` is a no-op, an object must have string or `null`
values (`null` stores the zero value `""`), anything else is a type
error. -/
def decodeStringMap (current : List (String × String)) :
    JsonVal → Option (List (String × String))
  | JsonVal.nullV => some current
  | JsonVal.objV entries =>
    entries.foldlM (fun m (kv : List Char × JsonVal) =>
      match kv.2 with
      | JsonVal.strV s => some (assocInsert m ⟨kv.1⟩ ⟨s⟩)
      | JsonVal.nullV => some (assocInsert m ⟨kv.1⟩ "")
      | _ => none) current
  | _ => none

/-- Model of `json.Unmarshal(body, &pj)` for `pj : packageJSON`: the top
level must be a JSON object (or `null`, leaving the zero value); keys
matching `dependencies` / `devDependencies` case-insensitively are decoded
with `decodeStringMap` in document order; other keys are ignored. -/
def unmarshalPackageJSON (body : String) : Option PackageJSON :=
  match parseJsonDoc body with
  | none => none
  | some JsonVal.nullV => some ⟨[], []⟩
  | some (JsonVal.objV entries) =>
    entries.foldlM (fun (pj : PackageJSON) (kv : List Char × JsonVal) =>
      if goEqualFold ⟨kv.1⟩ "dependencies" then
        (decodeStringMap pj.dependencies kv.2).map fun m => { pj with dependencies := m }
      else if goEqualFold ⟨kv.1⟩ "devDependencies" then
        (decodeStringMap pj.devDependencies kv.2).map fun m => { pj with devDependencies := m }
      else some pj) ⟨[], []⟩
  | some _ => none

/-! ## Dependency extraction dispatch (`getDependencies`) -/

/-- The `language` constants of the source (dchero.go:148-153). -/
inductive language where
  | js : language
  | python : language
  deriving Repr, DecidableEq

/-- Error kinds absorbed by the pipeline: a failed `httpGET` or a failed
`json.Unmarshal` (the only two error returns of `getDependencies`). -/
inductive ScanError where
  | fetchError : ScanError
  | extractionError : ScanError
  deriving Repr, DecidableEq

/-- Source `getDependencies` (dchero.go:155-198), with the network fetch
made explicit: `fetched` is the result of `httpGET targetURL` (`Except.error`
for a transport failure).  The `package.json` branch fires when
`path.Base` of the raw URL string equals `package.json` case-insensitively;
its dependency list is the keys of `dependencies` followed by the keys of
`devDependencies` (document order standing in for Go's map order). -/
def getDependencies (fetched : Except Unit String) (targetURL : String) :
    Except ScanError (List String × language) :=
  match fetched with
  | Except.error _ => Except.error ScanError.fetchError
  | Except.ok body =>
    if goEqualFold (pathBase targetURL) "package.json" then
      match unmarshalPackageJSON body with
      | none => Except.error ScanError.extractionError
      | some pj =>
        Except.ok (pj.dependencies.map Prod.fst ++ pj.devDependencies.map Prod.fst,
          language.js)
    else if looksLikeCodeFile targetURL && !(extractPackagesFromJS body).isEmpty then
      Except.ok (extractPackagesFromJS body, language.js)
    else
      Except.ok (requirementNames body, language.python)

/-! ## Registry checker (`isUnclaimed`) and HEAD cache -/

/-- The process-wide `headCache` (dchero.go:45): lookup URL to last
observed status, modelled as an association list. -/
def HeadCache : Type := List (String × Nat)

/-- Cache lookup (`headCache[u]`). -/
def cacheLookup (cache : HeadCache) (u : String) : Option Nat :=
  match cache with
  | [] => none
  | (k, v) :: rest => if k = u then some v else cacheLookup rest u

/-- The npm lookup-URL template (dchero.go:42). -/
def npmURL (pkg : String) : String :=
  "https://registry.npmjs.org/" ++ pkg ++ "/"

/-- The PyPI lookup-URL template (dchero.go:43). -/
def pypiURL (pkg : String) : String :=
  "https://pypi.org/project/" ++ pkg ++ "/"

/-- Per-language lookup-URL template selection of `isUnclaimed`
(dchero.go:246-252). -/
def lookupURL (pkg : String) (lang : language) : String :=
  match lang with
  | language.js => npmURL pkg
  | _ => pypiURL pkg

/-- Source `httpHEAD` (dchero.go:115-141) with the network call explicit:
`probe` is the status the one HEAD request would observe (`none` for a
transport failure).  A cache hit short-circuits; a successful probe is
stored in the cache. -/
def httpHEAD (u : String) (cache : HeadCache) (probe : Option Nat) :
    Option Nat × HeadCache :=
  match cacheLookup cache u with
  | some st => (some st, cache)
  | none =>
    match probe with
    | none => (none, cache)
    | some st => (some st, (u, st) :: cache)

/-- Source `isUnclaimed` (dchero.go:245-272): build the per-language
lookup URL, consult the cache, otherwise probe via `httpHEAD`; classify a
status as unclaimed exactly when it is neither 200 nor 302; a transport
failure yields `(false, 0)`.  Returns the pair together with the updated
cache. -/
def isUnclaimed (pkg : String) (lang : language) (cache : HeadCache)
    (probe : Option Nat) : (Bool × Nat) × HeadCache :=
  let checkURL :=
    match lang with
    | language.js => npmURL pkg
    | _ => pypiURL pkg
  match cacheLookup cache checkURL with
  | some st =>
    if st ≠ 200 && st ≠ 302 then ((true, st), cache) else ((false, st), cache)
  | none =>
    match httpHEAD checkURL cache probe with
    | (none, cache') => ((false, 0), cache')
    | (some st, cache') =>
      if st ≠ 200 && st ≠ 302 then ((true, st), cache') else ((false, st), cache')

/-! ## Worker pool (`runWorkers`) -/

/-- First error in completion order: the first `some` of the list. -/
def firstError {E : Type} : List (Option E) → Option E
  | [] => none
  | some e :: _ => some e
  | none :: rest => firstError rest

/-- Source `runWorkers` (dchero.go:274-326), modelled on an arbitrary
completion order: the workers drain the input queue and deliver one
output per input on the result channel, so the collected `results` are
the worker outputs in some permutation `order` of `inputs` (the theorems
assume `order.Perm inputs`); `firstErr` keeps the first error in that
completion order.  The concurrency bound only constrains scheduling, so
it does not appear in the result. -/
def runWorkers {T R E : Type} (inputs : List T) (worker : T → R × Option E)
    (concurrency : Nat) (order : List T) : List R × Option E :=
  let _ := (inputs, concurrency)
  (order.map fun t => (worker t).1, firstError (order.map fun t => (worker t).2))

/-! ## Scan pipeline (`checkURLDependencies` and the output loop) -/

/-- The `vuln` record (dchero.go:239-243). -/
structure Vuln where
  pkg : String
  status : Nat
  lang : language
  deriving Repr, DecidableEq

/-- The dedup loop of `checkURLDependencies` (dchero.go:340-352): trim
each name, drop the empty ones, keep the first occurrence of each. -/
def dedupNames (deps : List String) : List String :=
  go [] deps
where
  /-- Walks the names with the set of already-seen ones. -/
  go (seen : List String) : List String → List String
  | [] => []
  | d :: rest =>
    let t := goTrimSpace d
    if t = "" then go seen rest
    else if t ∈ seen then go seen rest
    else t :: go (t :: seen) rest

/-- Source `checkURLDependencies` (dchero.go:328-371), with the fetch
explicit and the per-name registry answer abstracted as `unclaimedOf`
(the inner `runWorkers» fan-out over `isUnclaimed`, whose cache and
probes C5 does not constrain); `innerOrder` is the inner pool's
completion order over the deduplicated names.  An extraction error is
returned to the caller; otherwise the non-nil vulnerability records are
collected. -/
def checkURLDependencies (fetched : Except Unit String) (targetURL : String)
    (unclaimedOf : String → language → Bool × Nat)
    (innerOrder : List String → List String) : Except ScanError (List Vuln) :=
  match getDependencies fetched targetURL with
  | Except.error e => Except.error e
  | Except.ok (deps, lang) =>
    if deps = [] then Except.ok []
    else
      Except.ok ((innerOrder (dedupNames deps)).filterMap fun n =>
        let r := unclaimedOf n lang
        if r.1 then some ⟨n, r.2, lang⟩ else none)

/-- The output loop of `main` (dchero.go:440-449): walk the outer pool's
results in completion order, skip every URL whose scan returned an error,
and emit each vulnerability tagged with its originating URL. -/
def mainAggregate (results : List (String × Except ScanError (List Vuln))) :
    List (Vuln × String) :=
  results.flatMap fun (r : String × Except ScanError (List Vuln)) =>
    match r.2 with
    | Except.error _ => []
    | Except.ok vs => vs.map fun v => (v, r.1)

/-! ## Claim-side definitions

The next definitions follow the wording of spec sentences rather than the
source; theorems below compare them with the source-side definitions. -/

/-- Stated from the claim's words (C2): the final segment of a URL's path,
ignoring any query string or fragment. -/
def finalPathSegmentSpec (u : String) : String :=
  ⟨(((cutAtFirst '#' u.data).1 |> (cutAtFirst '?' ·) |>.1).reverse.takeWhile (· ≠ '/')).reverse⟩

/-- Stated from the claim's words (C8): a quoted module specifier is
rejected when it starts with `.` or `/`, or case-insensitively with
`http://`, `https://` or `git+`. -/
def rejectedSpecifier (s : String) : Bool :=
  goHasPrefix s "." || goHasPrefix s "/" ||
    goHasPrefix (goToLower s) "http://" || goHasPrefix (goToLower s) "https://" ||
    goHasPrefix (goToLower s) "git+"

/-! ## Helper lemmas -/

theorem mem_dedupFirstAux (L : List String) :
    ∀ (seen : List String) (u : String),
      u ∈ dedupFirstAux seen L ↔ u ∈ L ∧ u ∉ seen := by
  induction L with
  | nil => intro seen u; simp [dedupFirstAux]
  | cons x xs ih =>
    intro seen u
    simp only [dedupFirstAux]
    by_cases hx : x ∈ seen
    · rw [if_pos hx, ih]
      simp only [List.mem_cons]
      constructor
      · rintro ⟨hu, hs⟩; exact ⟨Or.inr hu, hs⟩
      · rintro ⟨hu | hu, hs⟩
        · subst hu; exact absurd hx hs
        · exact ⟨hu, hs⟩
    · rw [if_neg hx]
      simp only [List.mem_cons, ih]
      by_cases hux : u = x
      · subst hux; simp [hx]
      · simp [hux]

theorem nodup_dedupFirstAux (L : List String) :
    ∀ (seen : List String), (dedupFirstAux seen L).Nodup := by
  induction L with
  | nil => intro seen; simp [dedupFirstAux]
  | cons x xs ih =>
    intro seen
    simp only [dedupFirstAux]
    by_cases hx : x ∈ seen
    · rw [if_pos hx]; exact ih seen
    · rw [if_neg hx]
      refine List.nodup_cons.mpr ⟨fun hmem => ?_, ih (x :: seen)⟩
      have := (mem_dedupFirstAux xs (x :: seen) x).mp hmem
      exact this.2 (List.mem_cons_self _ _)

theorem filterAux_eq_dedup (lines : List String) :
    ∀ (s₁ s₂ : List String),
      (∀ u, acceptURL u = true → (u ∈ s₁ ↔ u ∈ s₂)) →
      filterAux s₁ lines =
        (dedupFirstAux s₂ ((lines.map goTrimSpace).filter fun x => !(x == ""))).filter
          fun u => acceptURL u := by
  induction lines with
  | nil => intro s₁ s₂ _; rfl
  | cons raw rest ih =>
    intro s₁ s₂ inv
    simp only [filterAux, List.map_cons, List.filter_cons]
    by_cases h1 : goTrimSpace raw = ""
    · have hb : (!(goTrimSpace raw == "")) = false := by simp [h1]
      rw [if_pos h1, hb]
      simp only [Bool.false_eq_true, if_false]
      exact ih s₁ s₂ inv
    · have hb : (!(goTrimSpace raw == "")) = true := by simp [h1]
      rw [if_neg h1, hb]
      simp only [if_true]
      set t := goTrimSpace raw with ht
      by_cases h2 : t ∈ s₁
      · rw [if_pos h2]
        simp only [dedupFirstAux]
        by_cases h3 : t ∈ s₂
        · rw [if_pos h3]; exact ih s₁ s₂ inv
        · rw [if_neg h3]
          have hacc : ¬ acceptURL t = true := fun h => h3 ((inv t h).mp h2)
          simp only [List.filter_cons]
          rw [if_neg hacc]
          refine ih s₁ (t :: s₂) fun u hu => ?_
          rw [inv u hu]
          constructor
          · intro h; exact List.mem_cons_of_mem _ h
          · intro h
            rcases List.mem_cons.mp h with h | h
            · subst h; exact absurd hu hacc
            · exact h
      · rw [if_neg h2]
        simp only [dedupFirstAux]
        by_cases hacc : acceptURL t = true
        · have h3 : t ∉ s₂ := fun h => h2 ((inv t hacc).mpr h)
          rw [if_neg h3]
          simp only [List.filter_cons]
          rw [if_pos hacc, if_pos hacc]
          refine congrArg (t :: ·) (ih (t :: s₁) (t :: s₂) fun u hu => ?_)
          simp only [List.mem_cons, inv u hu]
        · rw [if_neg hacc]
          by_cases h3 : t ∈ s₂
          · rw [if_pos h3]; exact ih s₁ s₂ inv
          · rw [if_neg h3]
            simp only [List.filter_cons]
            rw [if_neg hacc]
            refine ih s₁ (t :: s₂) fun u hu => ?_
            rw [inv u hu]
            constructor
            · intro h; exact List.mem_cons_of_mem _ h
            · intro h
              rcases List.mem_cons.mp h with h | h
              · subst h; exact absurd hu hacc
              · exact h

theorem filterManifestURLs_eq_dedup (lines : List String) :
    filterManifestURLs lines =
      (dedupFirstAux [] ((lines.map goTrimSpace).filter fun x => !(x == ""))).filter
        fun u => acceptURL u :=
  filterAux_eq_dedup lines [] [] (fun _ _ => Iff.rfl)

theorem mem_filterManifestURLs (lines : List String) (u : String) :
    u ∈ filterManifestURLs lines ↔
      acceptURL u = true ∧ u ≠ "" ∧ u ∈ lines.map goTrimSpace := by
  rw [filterManifestURLs_eq_dedup]
  simp only [List.mem_filter, mem_dedupFirstAux, List.not_mem_nil, not_false_iff, and_true,
    Bool.not_eq_true', beq_eq_false_iff_ne, ne_eq]
  tauto

theorem nodup_filterManifestURLs (lines : List String) :
    (filterManifestURLs lines).Nodup := by
  rw [filterManifestURLs_eq_dedup]
  exact (nodup_dedupFirstAux _ _).filter _
theorem scopedTry_head {cs mm rest' : List Char} (h : scopedTry cs = some (mm, rest')) :
    ∃ t, mm = '@' :: t := by
  simp only [scopedTry] at h
  split at h
  · exact absurd h (by simp)
  · split at h
    · split at h
      · exact absurd h (by simp)
      · simp only [Option.some.injEq, Prod.mk.injEq] at h
        exact ⟨_, h.1.symm⟩
    · exact absurd h (by simp)

theorem scopedFindAllGo_head (fuel : Nat) :
    ∀ (cs m : List Char), m ∈ scopedFindAllGo fuel cs → ∃ t, m = '@' :: t := by
  induction fuel with
  | zero => intro cs m h; simp [scopedFindAllGo] at h
  | succ fuel ih =>
    intro cs m h
    match cs with
    | [] => simp [scopedFindAllGo] at h
    | c :: rest =>
      simp only [scopedFindAllGo] at h
      split at h
      · rcases hst : scopedTry rest with _ | ⟨mm, rest'⟩ <;> rw [hst] at h
        · exact ih rest m h
        · rcases List.mem_cons.mp h with h | h
          · subst h; exact scopedTry_head hst
          · exact ih rest' m h
      · exact ih rest m h

theorem mem_scopedFindAll (cs m : List Char) (h : m ∈ scopedFindAll cs) :
    ∃ t, m = '@' :: t :=
  scopedFindAllGo_head _ cs m h

theorem firstError_isSome {E : Type} (l : List (Option E)) (hne : l ≠ [])
    (hall : ∀ x ∈ l, x.isSome) : (firstError l).isSome := by
  match l with
  | [] => exact absurd rfl hne
  | none :: rest =>
    have := hall none (List.mem_cons_self _ _)
    simp at this
  | some e :: rest => simp [firstError]

theorem mem_mainAggregate (results : List (String × Except ScanError (List Vuln)))
    (v : Vuln) (u : String) :
    (v, u) ∈ mainAggregate results ↔
      ∃ vs, (u, Except.ok vs) ∈ results ∧ v ∈ vs := by
  induction results with
  | nil => simp [mainAggregate]
  | cons r rest ih =>
    rcases r with ⟨u0, r0⟩
    rcases r0 with e | vs0 <;>
      simp only [mainAggregate, List.flatMap_cons, List.mem_append, List.mem_cons,
        List.mem_map, List.nil_append] at *
    · constructor
      · intro h
        rcases ih.mp h with ⟨vs, hvs, hv⟩
        exact ⟨vs, Or.inr hvs, hv⟩
      · rintro ⟨vs, h | hvs, hv⟩
        · simp at h
        · exact ih.mpr ⟨vs, hvs, hv⟩
    · constructor
      · rintro (⟨v0, hv0, heq⟩ | h)
        · rw [Prod.mk.injEq] at heq
          exact ⟨vs0, Or.inl (by rw [heq.2]), heq.1 ▸ hv0⟩
        · rcases ih.mp h with ⟨vs, hvs, hv⟩
          exact ⟨vs, Or.inr hvs, hv⟩
      · rintro ⟨vs, h | hvs, hv⟩
        · rw [Prod.mk.injEq] at h
          obtain ⟨hu, hvs2⟩ := h
          obtain hvs3 := Except.ok.inj hvs2
          exact Or.inl ⟨v, hvs3 ▸ hv, by rw [hu]⟩
        · exact Or.inr (ih.mpr ⟨vs, hvs, hv⟩)

/-! ## Claim theorems -/

/-- C1: evidence of the code bug.  In `import x from './@scope/pkg'` the
scoped token `@scope/pkg` is immediately preceded by `/` in the
surrounding text (a relative-path false match), yet import-statement
analysis returns it: the source's rejection test examines the matched
token itself, which always starts with `@`, so no scoped token is ever
rejected on context. -/
theorem C1_preceding_context_not_rejected :
    extractPackagesFromJS "import x from './@scope/pkg'" = ["@scope/pkg"] := by decide

/-- C2 counterexample: for the URL `https://h/package.json?x=1`, whose
final path segment is `package.json` and which carries a query string,
extraction does not parse the body as a structured document: `path.Base`
of the raw URL string is `package.json?x=1`, the branch is skipped, and a
non-JSON body is happily processed as a requirement list with language
python instead of failing. -/
theorem C2_counterexample :
    goEqualFold (finalPathSegmentSpec "https://h/package.json?x=1") "package.json" = true ∧
    getDependencies (Except.ok "requests==2.31.0") "https://h/package.json?x=1" =
      Except.ok (["requests"], language.python) ∧
    language.python ≠ language.js := by
  refine ⟨by decide, by rfl, by decide⟩

/-- C2 (amended): for every URL for which `path.Base` of the raw URL
string equals `package.json` case-insensitively — which a URL carrying a
query string never satisfies — extraction parses the fetched body as
JSON: a well-formed body yields the keys of `dependencies` followed by
the keys of `devDependencies` with language js, and a malformed body
yields an extraction error. -/
theorem C2_package_json_branch (u body : String)
    (h : goEqualFold (pathBase u) "package.json" = true) :
    (∀ pj, unmarshalPackageJSON body = some pj →
      getDependencies (Except.ok body) u =
        Except.ok (pj.dependencies.map Prod.fst ++ pj.devDependencies.map Prod.fst,
          language.js)) ∧
    (unmarshalPackageJSON body = none →
      getDependencies (Except.ok body) u = Except.error ScanError.extractionError) := by
  constructor
  · intro pj hpj
    simp only [getDependencies, h, if_true, hpj]
  · intro hpj
    simp only [getDependencies, h, if_true, hpj]

/-- Witness for C2: the spec's own example body at a clean
`package.json` URL. -/
theorem C2_package_json_branch_witness :
    goEqualFold (pathBase "https://h/package.json") "package.json" = true ∧
    getDependencies
        (Except.ok "\x7b\"dependencies\":\x7b\"left-pad\":\"^1.0.0\"\x7d,\"devDependencies\":\x7b\"mocha\":\"^9\"\x7d\x7d")
        "https://h/package.json" =
      Except.ok (["left-pad", "mocha"], language.js) := by
  refine ⟨by decide, ?_⟩
  have h := (C2_package_json_branch "https://h/package.json"
      "\x7b\"dependencies\":\x7b\"left-pad\":\"^1.0.0\"\x7d,\"devDependencies\":\x7b\"mocha\":\"^9\"\x7d\x7d"
      (by decide)).1 ⟨[("left-pad", "^1.0.0")], [("mocha", "^9")]⟩ (by decide)
  simpa using h

/-- C3: `isUnclaimed` consults the cache under the per-language lookup
URL (npm template for js, package-index template otherwise) and
classifies the cached or freshly probed status: neither 200 nor 302
yields `(true, status)`, 200 or 302 yields `(false, status)`, and a
network failure yields `(false, 0)`; in particular a 404 probe reports
`(true, 404)` and 200/302 probes `(false, 200)` / `(false, 302)` for
both languages. -/
theorem C3_isUnclaimed_classification (pkg : String) (lang : language)
    (cache : HeadCache) (probe : Option Nat) :
    (∀ st, cacheLookup cache (lookupURL pkg lang) = some st →
      (isUnclaimed pkg lang cache probe).1 = (decide (st ≠ 200 ∧ st ≠ 302), st)) ∧
    (cacheLookup cache (lookupURL pkg lang) = none →
      (∀ st, probe = some st →
        (isUnclaimed pkg lang cache probe).1 = (decide (st ≠ 200 ∧ st ≠ 302), st)) ∧
      (probe = none → (isUnclaimed pkg lang cache probe).1 = (false, 0))) ∧
    ((isUnclaimed pkg lang [] (some 404)).1 = (true, 404) ∧
      (isUnclaimed pkg lang [] (some 200)).1 = (false, 200) ∧
      (isUnclaimed pkg lang [] (some 302)).1 = (false, 302)) := by
  have hclass : ∀ (st : Nat) (c : HeadCache),
      ((if st ≠ 200 && st ≠ 302 then ((true, st), c) else ((false, st), c)) :
        (Bool × Nat) × HeadCache).1 = (decide (st ≠ 200 ∧ st ≠ 302), st) := by
    intro st c
    by_cases h200 : st = 200
    · simp [h200]
    · by_cases h302 : st = 302
      · simp [h302]
      · simp [h200, h302]
  refine ⟨?_, ?_, ?_, ?_, ?_⟩
  · intro st hst
    cases lang <;>
      simp only [isUnclaimed, lookupURL] at hst ⊢ <;>
      rw [hst] <;> exact hclass st cache
  · intro hmiss
    constructor
    · intro st hp
      cases lang <;>
        simp only [isUnclaimed, lookupURL, httpHEAD] at hmiss ⊢ <;>
        rw [hmiss, hp] <;> exact hclass st _
    · intro hp
      cases lang <;>
        simp only [isUnclaimed, lookupURL, httpHEAD] at hmiss ⊢ <;>
        rw [hmiss, hp]
  · cases lang <;> simp [isUnclaimed, httpHEAD, cacheLookup]
  · cases lang <;> simp [isUnclaimed, httpHEAD, cacheLookup]
  · cases lang <;> simp [isUnclaimed, httpHEAD, cacheLookup]

/-- Witness for C3: concrete cache hits, probes and a network failure. -/
theorem C3_isUnclaimed_classification_witness :
    (isUnclaimed "leftpad" language.js
        [("https://registry.npmjs.org/leftpad/", 404)] none).1 = (true, 404) ∧
    (isUnclaimed "leftpad" language.python [] (some 404)).1 = (true, 404) ∧
    (isUnclaimed "leftpad" language.js [] (some 302)).1 = (false, 302) ∧
    (isUnclaimed "leftpad" language.js [] none).1 = (false, 0) := by
  refine ⟨?_, ?_, ?_, ?_⟩
  · have h := (C3_isUnclaimed_classification "leftpad" language.js
      [("https://registry.npmjs.org/leftpad/", 404)] none).1 404 (by decide)
    simpa using h
  · have h := ((C3_isUnclaimed_classification "leftpad" language.python [] (some 404)).2.1
      (by decide)).1 404 rfl
    simpa using h
  · have h := ((C3_isUnclaimed_classification "leftpad" language.js [] (some 302)).2.1
      (by decide)).1 302 rfl
    simpa using h
  · exact ((C3_isUnclaimed_classification "leftpad" language.js [] none).2.1
      (by decide)).2 rfl

/-- C4: for every input list, worker and completion order, the pool's
result list has exactly as many entries as there are inputs (failures
never cancel sibling work), the reported error is the first one in
completion order, and when every invocation fails on a non-empty input
the reported first error is present. -/
theorem C4_runWorkers_completeness {T R E : Type} (inputs : List T)
    (worker : T → R × Option E) (conc : Nat) (order : List T)
    (hperm : order.Perm inputs) :
    (runWorkers inputs worker conc order).1.length = inputs.length ∧
    (runWorkers inputs worker conc order).2 =
      firstError (order.map fun t => (worker t).2) ∧
    ((∀ t ∈ inputs, ((worker t).2).isSome) → inputs ≠ [] →
      ((runWorkers inputs worker conc order).2).isSome) := by
  refine ⟨by simp [runWorkers, hperm.length_eq], rfl, ?_⟩
  intro hall hne
  have horder : order ≠ [] := by
    intro h
    exact hne (List.length_eq_zero.mp (by rw [← hperm.length_eq, h, List.length_nil]))
  apply firstError_isSome
  · simpa using horder
  · intro x hx
    rcases List.mem_map.mp hx with ⟨t, ht, rfl⟩
    exact hall t (hperm.subset ht)

/-- Witness for C4: two inputs, both failing, completion in reverse
order. -/
theorem C4_runWorkers_completeness_witness :
    (runWorkers [1, 2] (fun n => (n * 10, some "boom")) 20 [2, 1]).1.length = 2 ∧
    ((runWorkers [1, 2] (fun n => (n * 10, some "boom")) 20 [2, 1]).2).isSome := by
  have h := C4_runWorkers_completeness [1, 2] (fun n => (n * 10, some "boom")) 20 [2, 1]
    (by decide)
  exact ⟨h.1, h.2.2 (by intro t ht; simp) (by simp)⟩

/-- C5: a URL whose scan failed contributes nothing to the final output;
sibling URLs that succeeded contribute every one of their vulnerability
records; `checkURLDependencies` forwards exactly the `getDependencies`
failure (fetch or extraction) as its error, and a fetch failure is such
an error; the output loop drops error entries, so no error value reaches
the output. -/
theorem C5_silent_url_abandonment
    (results : List (String × Except ScanError (List Vuln))) (u : String)
    (herr : ∀ r, (u, r) ∈ results → ∃ e, r = Except.error e) :
    (∀ v, (v, u) ∉ mainAggregate results) ∧
    (∀ u2 vs v, (u2, Except.ok vs) ∈ results → v ∈ vs →
      (v, u2) ∈ mainAggregate results) ∧
    (∀ fetched url f ord e, getDependencies fetched url = Except.error e →
      checkURLDependencies fetched url f ord = Except.error e) ∧
    (∀ url f ord, checkURLDependencies (Except.error ()) url f ord =
      Except.error ScanError.fetchError) := by
  refine ⟨?_, ?_, ?_, ?_⟩
  · intro v hv
    rcases (mem_mainAggregate results v u).mp hv with ⟨vs, hvs, _⟩
    rcases herr _ hvs with ⟨e, he⟩
    exact Except.noConfusion he
  · intro u2 vs v hvs hv
    exact (mem_mainAggregate results v u2).mpr ⟨vs, hvs, hv⟩
  · intro fetched url f ord e hget
    simp [checkURLDependencies, hget]
  · intro url f ord
    rfl

/-- Witness for C5: one failed URL and one succeeding sibling. -/
theorem C5_silent_url_abandonment_witness :
    (⟨"leftpad", 404, language.js⟩, "http://a/package.json") ∉
      mainAggregate
        [("http://a/package.json", Except.error ScanError.fetchError),
          ("http://b/x.js", Except.ok [⟨"leftpad", 404, language.js⟩])] ∧
    (⟨"leftpad", 404, language.js⟩, "http://b/x.js") ∈
      mainAggregate
        [("http://a/package.json", Except.error ScanError.fetchError),
          ("http://b/x.js", Except.ok [⟨"leftpad", 404, language.js⟩])] := by
  have h := C5_silent_url_abandonment
    [("http://a/package.json", Except.error ScanError.fetchError),
      ("http://b/x.js", Except.ok [⟨"leftpad", 404, language.js⟩])]
    "http://a/package.json" ?herr
  case herr =>
    intro r hr
    rcases List.mem_cons.mp hr with hr | hr
    · exact ⟨ScanError.fetchError, (Prod.mk.injEq .. ▸ hr).2⟩
    · rcases List.mem_cons.mp hr with hr | hr
      · exact absurd (Prod.mk.injEq .. ▸ hr).1 (by decide)
      · simp at hr
  exact ⟨h.1 _, h.2.1 "http://b/x.js" [⟨"leftpad", 404, language.js⟩]
    ⟨"leftpad", 404, language.js⟩ (by simp) (by simp)⟩

theorem acceptParsed_iff (p : GoURL) :
    acceptParsed p = true ↔
      (p.scheme = "http" ∨ p.scheme = "https") ∧ p.host ≠ "" ∧
        (manifestMatch (pathUnescapeLenient
            (p.path ++ (if p.rawQuery ≠ "" then "?" ++ p.rawQuery else "")).data) = true ∨
          looksLikeCodeFile
            (⟨pathUnescapeLenient
              (p.path ++ (if p.rawQuery ≠ "" then "?" ++ p.rawQuery else "")).data⟩ :
                String) = true) := by
  unfold acceptParsed
  constructor
  · intro hb
    split at hb
    · exact absurd hb (by simp)
    · next h1 =>
      split at hb
      · exact absurd hb (by simp)
      · next h2 =>
        refine ⟨?_, h2, by simpa using hb⟩
        by_cases hh : p.scheme = "http"
        · exact Or.inl hh
        · by_cases hh2 : p.scheme = "https"
          · exact Or.inr hh2
          · exact absurd (by simp [hh, hh2]) h1
  · rintro ⟨hs, hh, hm⟩
    have hc : ¬ ((p.scheme ≠ "http" && p.scheme ≠ "https") = true) := by
      rcases hs with hs | hs <;> simp [hs]
    rw [if_neg hc, if_neg hh]
    simpa using hm

theorem acceptURL_iff (u : String) :
    acceptURL u = true ↔
      ∃ p, urlParse u = some p ∧ (p.scheme = "http" ∨ p.scheme = "https") ∧
        p.host ≠ "" ∧
        (manifestMatch (pathUnescapeLenient
            (p.path ++ (if p.rawQuery ≠ "" then "?" ++ p.rawQuery else "")).data) = true ∨
          looksLikeCodeFile
            (⟨pathUnescapeLenient
              (p.path ++ (if p.rawQuery ≠ "" then "?" ++ p.rawQuery else "")).data⟩ :
                String) = true) := by
  unfold acceptURL
  rcases h : urlParse u with _ | p
  · simp
  · simp only [Option.some.injEq]
    rw [acceptParsed_iff]
    constructor
    · intro hp
      exact ⟨p, rfl, hp⟩
    · rintro ⟨p2, hp2, hp⟩
      cases hp2
      exact hp

/-- C6: a raw input line's trimmed form appears in the classifier's
output exactly when it is non-empty, parses as an absolute URL with
scheme `http` or `https` and a non-empty host, and its percent-decoded
path-plus-query matches one of the twelve manifest basenames (anchored to
occupy a full path segment: preceded by start or `/`, followed by end or
`?`/`#`/`/`) or ends case-insensitively in `.js`/`.mjs`/`.cjs`/`.ts`;
every other line is dropped. -/
theorem C6_classification_characterization (lines : List String) (raw : String)
    (hmem : raw ∈ lines) :
    goTrimSpace raw ∈ filterManifestURLs lines ↔
      goTrimSpace raw ≠ "" ∧
      ∃ p, urlParse (goTrimSpace raw) = some p ∧
        (p.scheme = "http" ∨ p.scheme = "https") ∧ p.host ≠ "" ∧
        (manifestMatch (pathUnescapeLenient
            (p.path ++ (if p.rawQuery ≠ "" then "?" ++ p.rawQuery else "")).data) = true ∨
          looksLikeCodeFile
            (⟨pathUnescapeLenient
              (p.path ++ (if p.rawQuery ≠ "" then "?" ++ p.rawQuery else "")).data⟩ :
                String) = true) := by
  rw [mem_filterManifestURLs, acceptURL_iff]
  have hm : goTrimSpace raw ∈ lines.map goTrimSpace := List.mem_map_of_mem _ hmem
  constructor
  · rintro ⟨hp, hne, _⟩; exact ⟨hne, hp⟩
  · rintro ⟨hne, hp⟩; exact ⟨hp, hne, hm⟩

/-- Witness for C6: an accepted manifest URL and, through the same
theorem, a rejected scheme. -/
theorem C6_classification_characterization_witness :
    "https://example.com/package.json" ∈
      filterManifestURLs ["https://example.com/package.json"] := by
  have h := C6_classification_characterization ["https://example.com/package.json"]
    "https://example.com/package.json" (by simp)
  have he : goTrimSpace "https://example.com/package.json" =
      "https://example.com/package.json" := by decide
  rw [he] at h
  exact h.mpr ⟨by decide,
    ⟨"https", "example.com", "/package.json", ""⟩, by decide, Or.inr rfl, by decide,
    Or.inl (by decide)⟩

theorem extract_not_rejected (content : String) (s : String)
    (h : s ∈ extractPackagesFromJS content) : rejectedSpecifier s = false := by
  unfold extractPackagesFromJS at h
  have h1 := List.mem_dedup.mp ((List.perm_insertionSort _ _).mem_iff.mp h)
  rcases List.mem_append.mp h1 with h2 | h2
  · rcases List.mem_filterMap.mp h2 with ⟨m, hm, hsome⟩
    dsimp only at hsome
    split at hsome
    · exact absurd hsome (by simp)
    · injection hsome with hs
      subst hs
      obtain ⟨t, rfl⟩ := mem_scopedFindAll content.data m hm
      rfl
  · rcases List.mem_filterMap.mp h2 with ⟨cap, hcap, hsome⟩
    dsimp only at hsome
    split at hsome
    · exact absurd hsome (by simp)
    · split at hsome
      · exact absurd hsome (by simp)
      · next hpre =>
        split at hsome
        · exact absurd hsome (by simp)
        · next hhttp =>
          injection hsome with hs
          subst hs
          simp only [Bool.or_eq_true, not_or, Bool.not_eq_true] at hpre hhttp
          simp [rejectedSpecifier, hpre.1, hpre.2, hhttp.1.1, hhttp.1.2, hhttp.2]

/-- C8: no candidate starting with `.`, `/`, or case-insensitively with
`http://`, `https://` or `git+` ever appears in the import-analysis
result; the result is duplicate-free and sorted lexicographically; and
the spec's example text yields exactly `lodash`. -/
theorem C8_import_analysis (content : String) (s : String)
    (hbad : rejectedSpecifier s = true) :
    s ∉ extractPackagesFromJS content ∧
    (extractPackagesFromJS content).Sorted (· ≤ ·) ∧
    (extractPackagesFromJS content).Nodup ∧
    extractPackagesFromJS "import foo from 'lodash'; const bar = require('./local');" =
      ["lodash"] := by
  refine ⟨?_, ?_, ?_, by decide⟩
  · intro hmem
    rw [extract_not_rejected content s hmem] at hbad
    exact Bool.false_ne_true hbad
  · exact List.sorted_insertionSort _ _
  · exact ((List.perm_insertionSort _ _).nodup_iff).mpr (List.nodup_dedup _)

/-- Witness for C8: the relative specifier `./local` of the example is
rejected, and the example's result is sorted. -/
theorem C8_import_analysis_witness :
    "./local" ∉ extractPackagesFromJS
      "import foo from 'lodash'; const bar = require('./local');" ∧
    (extractPackagesFromJS
      "import foo from 'lodash'; const bar = require('./local');").Sorted (· ≤ ·) :=
  ⟨(C8_import_analysis "import foo from 'lodash'; const bar = require('./local');"
      "./local" (by decide)).1,
    (C8_import_analysis "import foo from 'lodash'; const bar = require('./local');"
      "./local" (by decide)).2.1⟩

/-- C7 counterexample: a line rejected by the classifier (`ftp` scheme)
that occurs twice has zero surviving occurrences, not exactly one. -/
theorem C7_counterexample :
    (filterManifestURLs ["ftp://x/package.json", "ftp://x/package.json"]).count
        "ftp://x/package.json" = 0 ∧
    filterManifestURLs ["ftp://x/package.json", "ftp://x/package.json"] = [] := by
  constructor <;> decide

/-- C7 (amended): for a string occurring two or more times among the
input lines (in trimmed form), exactly one occurrence survives when the
classifier accepts the string and zero otherwise; and the whole output is
the input's trimmed non-empty lines, deduplicated keeping each first
occurrence in first-seen order, filtered by the acceptance test. -/
theorem C7_dedup_keeps_first (lines : List String) (s : String)
    (hs : goTrimSpace s = s) (hne : s ≠ "") (hdup : 2 ≤ lines.count s) :
    (filterManifestURLs lines).count s = (if acceptURL s = true then 1 else 0) ∧
    filterManifestURLs lines =
      (dedupFirstAux [] ((lines.map goTrimSpace).filter fun x => !(x == ""))).filter
        fun u => acceptURL u := by
  refine ⟨?_, filterManifestURLs_eq_dedup lines⟩
  have hmem : s ∈ lines := List.count_pos_iff.mp (by omega)
  by_cases hacc : acceptURL s = true
  · rw [if_pos hacc]
    refine List.count_eq_one_of_mem (nodup_filterManifestURLs lines) ?_
    refine (mem_filterManifestURLs lines s).mpr ⟨hacc, hne, ?_⟩
    rw [← hs]
    exact List.mem_map_of_mem _ hmem
  · rw [if_neg hacc]
    refine List.count_eq_zero.mpr fun hmem2 => ?_
    exact hacc ((mem_filterManifestURLs lines s).mp hmem2).1

/-- Witness for C7: a duplicated accepted URL survives exactly once. -/
theorem C7_dedup_keeps_first_witness :
    (filterManifestURLs
        ["https://a.com/package.json", "https://a.com/package.json"]).count
      "https://a.com/package.json" = 1 := by
  have h := (C7_dedup_keeps_first
    ["https://a.com/package.json", "https://a.com/package.json"]
    "https://a.com/package.json" (by decide) (by decide) (by decide)).1
  rw [h, if_pos (by decide)]

/-- C9: content that reaches the requirement-list branch (the URL is not
named `package.json` for `path.Base`, and either is not a code file or
yields no import candidates) is split at newlines; trimmed lines that are
empty or start with `#` are dropped; each kept line contributes the text
before its first delimiter from `{<,>,=,!,~,[,],;,whitespace}` as a
package name (when non-empty), with language python; the spec's example
yields `requests` and `flask`. -/
theorem C9_requirement_list_branch (u body : String)
    (hnotpkg : goEqualFold (pathBase u) "package.json" = false)
    (hnojs : looksLikeCodeFile u = false ∨ extractPackagesFromJS body = []) :
    getDependencies (Except.ok body) u =
      Except.ok (requirementNames body, language.python) ∧
    requirementNames "requests==2.31.0\n# comment\n\nflask>=2.0\n" =
      ["requests", "flask"] := by
  constructor
  · simp only [getDependencies, hnotpkg, Bool.false_eq_true, if_false]
    rcases hnojs with h | h
    · simp [h]
    · simp [h]
  · decide

/-- Witness for C9: the spec's example requirement list. -/
theorem C9_requirement_list_branch_witness :
    getDependencies (Except.ok "requests==2.31.0\n# comment\n\nflask>=2.0\n")
        "https://h/requirements.txt" =
      Except.ok (["requests", "flask"], language.python) := by
  have h := C9_requirement_list_branch "https://h/requirements.txt"
    "requests==2.31.0\n# comment\n\nflask>=2.0\n" (by decide) (Or.inl (by decide))
  rw [h.1, h.2]

/-- C10: a URL passing the code-file suffix test but not named
`package.json`, whose content yields zero import candidates, falls
through to the requirement-list branch: the result is the requirement
names with language python, not an empty js result. -/
theorem C10_codefile_fallthrough (u body : String)
    (hcode : looksLikeCodeFile u = true)
    (hnotpkg : goEqualFold (pathBase u) "package.json" = false)
    (hempty : extractPackagesFromJS body = []) :
    getDependencies (Except.ok body) u =
      Except.ok (requirementNames body, language.python) := by
  simp [getDependencies, hnotpkg, hcode, hempty]

/-- Witness for C10: a `.js` URL whose body has no imports is parsed as a
requirement list. -/
theorem C10_codefile_fallthrough_witness :
    getDependencies (Except.ok "requests==1.0") "http://h/app.js" =
      Except.ok (["requests"], language.python) := by
  have h := C10_codefile_fallthrough "http://h/app.js" "requests==1.0"
    (by decide) (by decide) (by decide)
  rw [h]
  have : requirementNames "requests==1.0" = ["requests"] := by decide
  rw [this]
